import Mathlib

set_option maxRecDepth 8192

/-!
Verification development for the Sensor_Box chart rendering and report
composition engine (frontend/src/components/Chart and friends).

JavaScript numbers are modelled as exact rationals; where `NaN` is
significant (risk scores fed to `clampRisk`) a number is modelled by the
type `JsNum` with an explicit `nan` constructor.  `null`/`undefined` slots
are modelled by `Option`.  Strings manipulated character by character are
modelled as `List Char`.
-/

/-- A JavaScript number: either NaN or a finite value (modelled exactly as a
rational). -/
inductive JsNum where
  | nan : JsNum
  | num : ℚ → JsNum
deriving DecidableEq

/-- An HSL colour as produced by the template string
`hsl(${hue}, 85%, ${lightness}%)` in `colorForRisk`; the three numeric
components are kept structurally rather than rendered to text. -/
structure HSL where
  hue : ℚ
  sat : ℚ
  light : ℚ
deriving DecidableEq

/-- A cell fill colour: one of the fixed hex constants, or a computed HSL
colour. -/
inductive Fill where
  | named : String → Fill
  | hsl : HSL → Fill
deriving DecidableEq

/-- Source constant `DISABLED_COLOR = '#c4b5fd'`. -/
def DISABLED_COLOR : Fill := .named ("#c4b5fd")

/-- Source constant `NO_SENSOR_COLOR = '#d1d5db'`. -/
def NO_SENSOR_COLOR : Fill := .named ("#d1d5db")

/-- Source constant `NO_DATA_COLOR = '#f3f4f6'`. -/
def NO_DATA_COLOR : Fill := .named ("#f3f4f6")

/-- RiskHeatmapPanel.tsx `clampRisk`: `null`/`undefined`/`NaN` risks map to
`null`; otherwise the risk is clamped into `[0, 1]`. -/
def clampRisk : Option JsNum → Option ℚ
  | none => none
  | some .nan => none
  | some (.num risk) =>
    if risk < 0 then some 0
    else if risk > 1 then some 1
    else some risk

/-- RiskHeatmapPanel.tsx `colorForRisk`: hue 120 − risk×120 (120 = green,
0 = red), saturation fixed at 85, lightness 65 − risk×20. -/
def colorForRisk (risk : ℚ) : HSL :=
  { hue := 120 - risk * 120
    sat := 85
    light := 65 - risk * 20 }

/-- The digit characters of a natural number, most significant first. -/
def natToChars (n : Nat) : List Char := Nat.toDigits 10 n

/-- The decimal rendering of an integer, with a leading minus sign when
negative. -/
def intToChars (n : Int) : List Char :=
  if n < 0 then '-' :: natToChars (-n).toNat else natToChars n.toNat

/-- JavaScript `x.toFixed(1)` for a non-negative exact value: the integer
`n` nearest to `10·x` (ties towards the larger `n`), printed as `i.d`. -/
def ratToFixed1Abs (q : ℚ) : List Char :=
  let n : Nat := (Rat.floor (10 * q + 1 / 2)).toNat
  natToChars (n / 10) ++ '.' :: natToChars (n % 10)

/-- JavaScript `x.toFixed(1)` on an exact value: negative values print a
sign then format the magnitude. -/
def ratToFixed1 (q : ℚ) : List Char :=
  if q < 0 then '-' :: ratToFixed1Abs (-q) else ratToFixed1Abs q

/-- JavaScript `x.toFixed(0)` for a non-negative exact value. -/
def ratToFixed0Abs (q : ℚ) : List Char :=
  natToChars ((Rat.floor (q + 1 / 2)).toNat)

/-- JavaScript `x.toFixed(0)` on an exact value. -/
def ratToFixed0 (q : ℚ) : List Char :=
  if q < 0 then '-' :: ratToFixed0Abs (-q) else ratToFixed0Abs q

/-- JavaScript `value.toFixed(1)` including the NaN case. -/
def jsToFixed1 : JsNum → List Char
  | .nan => "NaN".toList
  | .num q => ratToFixed1 q

/-- One row of a `RiskHeatmapResp` (types/charts.ts `RiskHeatmapRow`);
`values` and `risk` entries are `number | null`, and a stored number may be
NaN, hence `Option JsNum`. -/
structure RiskHeatmapRow where
  metric : String
  unit : String
  values : List (Option JsNum)
  risk : List (Option JsNum)
  enabled : Bool
  has_sensor : Bool
deriving DecidableEq

/-- The fill colour and optional cell text resolved by the canvas renderer
`renderHeatmapToCanvas` for one cell (RiskHeatmapPanel.tsx lines 164-196).
`row.values[colIdx]` out of range is `undefined`, i.e. `none`; the final
`value == null ? null : value.toFixed(1)` is transcribed as the inner
match even though `value` is already known non-null there. -/
def canvasCellPaint (row : RiskHeatmapRow) (colIdx : Nat) : Fill × Option (List Char) :=
  let value := row.values.getD colIdx none
  let risk := clampRisk (row.risk.getD colIdx none)
  if !row.has_sensor then (NO_SENSOR_COLOR, none)
  else if !row.enabled then (DISABLED_COLOR, none)
  else
    match value, risk with
    | some v, some r => (Fill.hsl (colorForRisk r), some (jsToFixed1 v))
    | _, _ => (NO_DATA_COLOR, none)

/-- The four visually distinct cells that the interactive renderer
`renderCell` can produce: the three fixed status chips, or a coloured cell
with the value text and a risk percentage line. -/
inductive HeatCellView where
  | noSensor : HeatCellView
  | disabled : HeatCellView
  | noData : HeatCellView
  | cell : HSL → List Char → List Char → HeatCellView
deriving DecidableEq

/-- The interactive cell renderer `renderCell` (RiskHeatmapPanel.tsx lines
542-576), reduced to the background colour and texts it emits. -/
def renderCellView (row : RiskHeatmapRow) (colIdx : Nat) : HeatCellView :=
  let rawRisk := clampRisk (row.risk.getD colIdx none)
  let value := row.values.getD colIdx none
  if !row.has_sensor then .noSensor
  else if !row.enabled then .disabled
  else
    match value, rawRisk with
    | some v, some r => .cell (colorForRisk r) (jsToFixed1 v) (ratToFixed0 (r * 100))
    | _, _ => .noData

/-- RiskHeatmapPanel.tsx line 204: `Math.max(1, Math.ceil(cols / maxXTicks))`
with `maxXTicks = 12`; `(cols + 11) / 12` is the ceiling in `Nat`. -/
def tickEvery (cols : Nat) : Nat := max 1 ((cols + 11) / 12)

/-- The `drawnTicks` set after the column loop (lines 205-223): the loop
`for (col = 0; col < cols; col += tickEvery)` visits exactly the multiples
of the stride below `cols`.  The TS `Set<number>` is modelled as a
`Finset`. -/
def drawnTicks (cols : Nat) : Finset Nat :=
  (Finset.range cols).filter (fun col => col % tickEvery cols = 0)

/-- The full set of drawn column ticks: the loop's multiples, plus the last
column index when it was not already drawn (lines 224-241). -/
def allDrawnTicks (cols : Nat) : Finset Nat :=
  if cols - 1 ∈ drawnTicks cols then drawnTicks cols
  else insert (cols - 1) (drawnTicks cols)

/-- ScatterPlotSVG.tsx `padRange` on finite inputs (the `!isFinite` guard
cannot fire for exact rationals): a degenerate range is widened by 10% of
`|min|` on each side, with `min || 1` substituting 1 when `min` is 0;
otherwise each end is extended by 5% of the span. -/
def padRange (mn mx : ℚ) : ℚ × ℚ :=
  if mn = mx then
    let delta := |if mn = 0 then 1 else mn|
    (mn - delta * 0.1, mx + delta * 0.1)
  else
    let span := mx - mn
    let extra := span * 0.05
    (mn - extra, mx + extra)

/-- `Math.min` over a spread list; `none` plays the role of the `+Infinity`
result of an empty spread. -/
def jsMathMin : List ℚ → Option ℚ
  | [] => none
  | x :: xs =>
    match jsMathMin xs with
    | none => some x
    | some m => some (min x m)

/-- `Math.max` over a spread list; `none` plays the role of `-Infinity`. -/
def jsMathMax : List ℚ → Option ℚ
  | [] => none
  | x :: xs =>
    match jsMathMax xs with
    | none => some x
    | some m => some (max x m)

/-- ChartSVG.tsx lines 30-35: `minY`/`maxY` over the data values and the
threshold values, then the degenerate-range fix `[minY-1, maxY+1]` when
they coincide.  The source writes `Math.min(...data, ...(thrVals.length ?
thrVals : [Infinity]))`; the `[Infinity]` (resp. `[-Infinity]`) sentinel is
the identity of `min` (resp. `max`), so this equals the extremum over
`data ++ thrVals`.  `none` is returned only when both lists are empty,
which the component's early `!data.length` return rules out. -/
def chartYDomain (data thrVals : List ℚ) : Option (ℚ × ℚ) :=
  match jsMathMin (data ++ thrVals), jsMathMax (data ++ thrVals) with
  | some minY, some maxY =>
    some (if minY = maxY then minY - 1 else minY,
          if minY = maxY then maxY + 1 else maxY)
  | _, _ => none

/-- Outcome of the Dashboard `handleDownloadReport` flow: either the
blocking `window.alert` message, or a call to `downloadChartsReport` with
the assembled section list. -/
inductive ReportOutcome (α : Type) where
  | alert : String → ReportOutcome α
  | download : List α → ReportOutcome α
deriving DecidableEq

/-- Dashboard/index.tsx `handleDownloadReport` (lines 86-115): the three
panels are queried in the fixed order time-series, scatter, heatmap; each
non-null section is pushed in that order; an empty list triggers the
blocking alert and `downloadChartsReport` is not invoked.  The three
`Option` arguments are the values of the three awaited
`getReportSection()` calls. -/
def handleDownloadReport {α : Type} (lineSection scatterSection heatmapSection : Option α) :
    ReportOutcome α :=
  let sections :=
    (match lineSection with | some s => [s] | none => []) ++
    (match scatterSection with | some s => [s] | none => []) ++
    (match heatmapSection with | some s => [s] | none => [])
  if sections.isEmpty then
    .alert ("Load at least one chart before exporting the report.")
  else
    .download sections

/-- `String.prototype.replace` with a global single-character pattern:
every occurrence of `c` becomes `rep`. -/
def replaceAllChar (c : Char) (rep : List Char) : List Char → List Char
  | [] => []
  | x :: xs => (if x = c then rep else [x]) ++ replaceAllChar c rep xs

/-- The apostrophe character, U+0027. -/
def apos : Char := Char.ofNat 39

/-- reportUtils.ts `escapeHtml`: the five chained global replacements, in
source order (`&` first, so entity ampersands are not re-escaped). -/
def escapeHtml (input : List Char) : List Char :=
  replaceAllChar apos ("&#39;".toList)
    (replaceAllChar '"' "&quot;".toList
      (replaceAllChar '>' "&gt;".toList
        (replaceAllChar '<' "&lt;".toList
          (replaceAllChar '&' "&amp;".toList input))))

/-- The per-character entity map that the chain of replacements in
`escapeHtml` amounts to. -/
def escapeChar (c : Char) : List Char :=
  if c = '&' then "&amp;".toList
  else if c = '<' then "&lt;".toList
  else if c = '>' then "&gt;".toList
  else if c = '"' then "&quot;".toList
  else if c = apos then "&#39;".toList
  else [c]

/-- Filters of a time-series report section (types/report.ts). -/
structure TimeseriesFilters where
  serial : List Char
  metric : List Char
  interval : List Char
  aggregate : List Char
  range : List Char
deriving DecidableEq

/-- Filters of a scatter report section (types/report.ts). -/
structure ScatterFilters where
  serial : List Char
  xMetric : List Char
  yMetric : List Char
  interval : List Char
  range : List Char
deriving DecidableEq

/-- Filters of a heatmap report section (types/report.ts); `diseaseKey`
and `diseaseName` are optional. -/
structure HeatmapFilters where
  serial : List Char
  interval : List Char
  aggregate : List Char
  range : List Char
  selectedMetrics : List (List Char)
  diseaseKey : Option (List Char)
  diseaseName : Option (List Char)
deriving DecidableEq

/-- A `ReportSection` (types/report.ts): kind-tagged title, image data URL
and filter record.  The `data` field stands for the section's raw response
after `JSON.stringify(section.data, null, 2)`, which is the form in which
`sectionToHtml` consumes it. -/
inductive ReportSection where
  | timeseries : List Char → List Char → TimeseriesFilters → List Char → ReportSection
  | scatter : List Char → List Char → ScatterFilters → List Char → ReportSection
  | heatmap : List Char → List Char → HeatmapFilters → List Char → ReportSection
deriving DecidableEq

/-- The `title` field of a section. -/
def ReportSection.titleOf : ReportSection → List Char
  | .timeseries t _ _ _ => t
  | .scatter t _ _ _ => t
  | .heatmap t _ _ _ => t

/-- The `imageDataUrl` field of a section. -/
def ReportSection.imageUrlOf : ReportSection → List Char
  | .timeseries _ u _ _ => u
  | .scatter _ u _ _ => u
  | .heatmap _ u _ _ => u

/-- The serialized `data` field of a section. -/
def ReportSection.dataOf : ReportSection → List Char
  | .timeseries _ _ _ d => d
  | .scatter _ _ _ d => d
  | .heatmap _ _ _ d => d

/-- JavaScript `a || b` on strings coming from an optional field: an absent
value and the empty string are both falsy. -/
def jsOrStr (a : Option (List Char)) (b : List Char) : List Char :=
  match a with
  | none => b
  | some s => if s = [] then b else s

/-- reportUtils.ts `renderFilters`: the kind-specific one-line filter
summary; every filter value goes through `escapeHtml`. -/
def renderFilters : ReportSection → List Char
  | .timeseries _ _ f _ =>
    "Sensor: ".toList ++ escapeHtml f.serial ++
    " | Metric: ".toList ++ escapeHtml f.metric ++
    " | Interval: ".toList ++ escapeHtml f.interval ++
    " | Aggregate: ".toList ++ escapeHtml f.aggregate ++
    " | Range: ".toList ++ escapeHtml f.range
  | .scatter _ _ f _ =>
    "Sensor: ".toList ++ escapeHtml f.serial ++
    " | X: ".toList ++ escapeHtml f.xMetric ++
    " | Y: ".toList ++ escapeHtml f.yMetric ++
    " | Interval: ".toList ++ escapeHtml f.interval ++
    " | Range: ".toList ++ escapeHtml f.range
  | .heatmap _ _ f _ =>
    let disease := jsOrStr f.diseaseName (jsOrStr f.diseaseKey ("N/A".toList))
    let metrics :=
      if f.selectedMetrics.length ≠ 0 then
        List.intercalate (", ".toList) (f.selectedMetrics.map escapeHtml)
      else "All metrics".toList
    "Sensor: ".toList ++ escapeHtml f.serial ++
    " | Disease: ".toList ++ escapeHtml disease ++
    " | Interval: ".toList ++ escapeHtml f.interval ++
    " | Aggregate: ".toList ++ escapeHtml f.aggregate ++
    " | Range: ".toList ++ escapeHtml f.range ++
    " | Metrics: ".toList ++ metrics

/-- reportUtils.ts `sectionToHtml`: the section block template.  The title
and the serialized data are escaped; the `<img>` tag embeds
`section.imageDataUrl` directly, with no escaping. -/
def sectionToHtml (s : ReportSection) : List Char :=
  let title := escapeHtml s.titleOf
  let filters := renderFilters s
  let image := "<img src=\"".toList ++ s.imageUrlOf ++ "\" alt=\"".toList ++ title ++ "\" />".toList
  let data := escapeHtml s.dataOf
  "\n    <div class=\"section\">\n      <h3>".toList ++ title ++
  "</h3>\n      <div class=\"filters\">".toList ++ filters ++
  "</div>\n      ".toList ++ image ++
  "\n      <details>\n        <summary>Raw data</summary>\n        <pre>".toList ++ data ++
  "</pre>\n      </details>\n    </div>\n  ".toList

/-- Modelled from the spec: the same section template as `sectionToHtml`
but with every interpolated string passed through the escaping function,
including the image data URL, as the specification's escaping sentence
demands ("All interpolated text must be escaped...").  Used to compare the
code's behaviour against the claimed one. -/
def sectionToHtmlSpecEscaped (s : ReportSection) : List Char :=
  let title := escapeHtml s.titleOf
  let filters := renderFilters s
  let image := "<img src=\"".toList ++ escapeHtml s.imageUrlOf ++ "\" alt=\"".toList ++ title ++ "\" />".toList
  let data := escapeHtml s.dataOf
  "\n    <div class=\"section\">\n      <h3>".toList ++ title ++
  "</h3>\n      <div class=\"filters\">".toList ++ filters ++
  "</div>\n      ".toList ++ image ++
  "\n      <details>\n        <summary>Raw data</summary>\n        <pre>".toList ++ data ++
  "</pre>\n      </details>\n    </div>\n  ".toList

/-- JavaScript whitespace as used by `String.prototype.trim` and the regex
class `\s` (the code points relevant here). -/
def isJsSpace (c : Char) : Bool :=
  c = ' ' || c = '\t' || c = '\n' || c = '\r' ||
  c.toNat = 11 || c.toNat = 12 || c.toNat = 0xa0 ||
  c.toNat = 0x2028 || c.toNat = 0x2029 || c.toNat = 0xfeff

/-- `String.prototype.trim`: strip leading and trailing JS whitespace. -/
def jsTrim (l : List Char) : List Char :=
  ((l.dropWhile isJsSpace).reverse.dropWhile isJsSpace).reverse

/-- Match exactly `n` ASCII digits, returning them and the rest. -/
def takeDigitsExact : Nat → List Char → Option (List Char × List Char)
  | 0, l => some ([], l)
  | _ + 1, [] => none
  | n + 1, c :: l =>
    if c.isDigit then
      match takeDigitsExact n l with
      | some (d, r) => some (c :: d, r)
      | none => none
    else none

/-- Match one or more ASCII digits greedily (`\d+`). -/
def takeDigits1 (l : List Char) : Option (List Char × List Char) :=
  let d := l.takeWhile Char.isDigit
  if d = [] then none else some (d, l.dropWhile Char.isDigit)

/-- Match a single expected character. -/
def expectChar (c : Char) : List Char → Option (List Char)
  | x :: xs => if x = c then some xs else none
  | [] => none

/-- The zone token of the ISO-ish regex: a literal `Z`/`z` (capture group
8 only) or a signed `HH:MM` / `HHMM` offset (groups 9-11). -/
inductive ZoneGroups where
  | zLit : Char → ZoneGroups
  | signed : Char → List Char → List Char → ZoneGroups
deriving DecidableEq

/-- The capture groups of `ISOishRegex` in formatTimestamp.ts:
`^(\d{4})-(\d{2})-(\d{2})[ T](\d{2}):(\d{2})(?::(\d{2})(?:[.,](\d+))?)?`
`(?:\s*(Z|z|([+-])(\d{2}):?(\d{2})))?$`. -/
structure IsoGroups where
  yearStr : List Char
  monthStr : List Char
  dayStr : List Char
  hourStr : List Char
  minuteStr : List Char
  secondStr : Option (List Char)
  fractionStr : Option (List Char)
  zone : Option ZoneGroups
deriving DecidableEq

/-- Consume the optional `:` of the offset (`:?`); deterministic because
the following `(\d{2})` can never match a colon. -/
def skipColon : List Char → List Char
  | ':' :: r => r
  | l => l

/-- Match the anchored zone alternative `(Z|z|([+-])(\d{2}):?(\d{2}))$`. -/
def matchZone (l : List Char) : Option ZoneGroups :=
  match l with
  | [] => none
  | c :: rest =>
    if c = 'Z' ∨ c = 'z' then
      if rest = [] then some (.zLit c) else none
    else if c = '+' ∨ c = '-' then
      match takeDigitsExact 2 rest with
      | none => none
      | some (hh, rest1) =>
        match takeDigitsExact 2 (skipColon rest1) with
        | none => none
        | some (mm, rest3) => if rest3 = [] then some (.signed c hh mm) else none
    else none

/-- The optional seconds group `(?::(\d{2})(?:[.,](\d+))?)?` of the
regex: absent unless the next character is `:` (the zone token never
starts with one), in which case two digit seconds and an optional
fraction are required. -/
def matchSeconds (l : List Char) :
    Option (Option (List Char) × Option (List Char) × List Char) :=
  match l with
  | ':' :: r =>
    match takeDigitsExact 2 r with
    | none => none
    | some (s, r1) =>
      match r1 with
      | c :: r2 =>
        if c = '.' ∨ c = ',' then
          match takeDigits1 r2 with
          | none => none
          | some (f, r3) => some (some s, some f, r3)
        else some (some s, none, r1)
      | [] => some (some s, none, r1)
  | _ => some (none, none, l)

/-- The date/time separator class `[ T]` of the regex. -/
def expectDateSep : List Char → Option (List Char)
  | c :: r => if c = ' ' ∨ c = 'T' then some r else none
  | [] => none

/-- The anchored `ISOishRegex` as a deterministic matcher.  Every point of
regex alternation here is decided by disjoint first characters (the
seconds group starts with `:`, the zone token never does; the fraction's
`\d+` and the zone's `\s*` are greedy against disjoint follower sets), so
no backtracking is needed and this matcher succeeds exactly when the regex
matches, with the same capture groups. -/
def matchISOish (l : List Char) : Option IsoGroups := do
  let (y, l) ← takeDigitsExact 4 l
  let l ← expectChar '-' l
  let (mo, l) ← takeDigitsExact 2 l
  let l ← expectChar '-' l
  let (d, l) ← takeDigitsExact 2 l
  let l ← expectDateSep l
  let (h, l) ← takeDigitsExact 2 l
  let l ← expectChar ':' l
  let (mi, l) ← takeDigitsExact 2 l
  let (sec, frac, l) ← matchSeconds l
  if l = [] then
    pure ⟨y, mo, d, h, mi, sec, frac, none⟩
  else
    match matchZone (l.dropWhile isJsSpace) with
    | some z => pure ⟨y, mo, d, h, mi, sec, frac, some z⟩
    | none => none

/-- The value of a digit string, most significant first. -/
def digitsVal (l : List Char) : Nat :=
  l.foldl (fun a c => 10 * a + (c.toNat - '0'.toNat)) 0

/-- `Number.parseInt(str, 10)` restricted to the matcher's capture groups,
which are non-empty all-digit strings; `none` models the `NaN` result on
other inputs. -/
def parseIntAllDigits (l : List Char) : Option Nat :=
  if l ≠ [] ∧ l.all Char.isDigit then some (digitsVal l) else none

/-- `str.padEnd(n, c)`. -/
def padEndTo (n : Nat) (c : Char) (l : List Char) : List Char :=
  l ++ List.replicate (n - l.length) c

/-- Days since the epoch of a proleptic-Gregorian civil date
(`m` in 1..12); the standard civil-from-days inverse used by ECMAScript's
MakeDay. -/
def daysFromCivil (y m d : Int) : Int :=
  let yy := y - (if m ≤ 2 then 1 else 0)
  let era := Int.fdiv yy 400
  let yoe := yy - era * 400
  let mp := Int.emod (m + 9) 12
  let doy := Int.fdiv (153 * mp + 2) 5 + d - 1
  let doe := yoe * 365 + Int.fdiv yoe 4 - Int.fdiv yoe 100 + doy
  era * 146097 + doe - 719468

/-- ECMAScript `Date.UTC(year, month, day, h, m, s, ms)` in milliseconds:
two-digit years map into 1900-1999, the month may overflow into the year,
and the remaining fields contribute linearly. -/
def dateUTC (year month day hour minute second ms : Int) : Int :=
  let yr := if 0 ≤ year ∧ year ≤ 99 then 1900 + year else year
  let ym := yr + Int.fdiv month 12
  let mn := Int.emod month 12
  let days := daysFromCivil ym (mn + 1) day
  days * 86400000 + hour * 3600000 + minute * 60000 + second * 1000 + ms

/-- The local broken-down time of a `Date`, as read by the getters
`getFullYear() .. getMilliseconds()` (note `getMonth` is 0-based).  The
mapping from epoch milliseconds to these fields depends on the host's
timezone database, so it is kept as a parameter of the embedding. -/
structure LocalFields where
  getFullYear : Int
  getMonth : Int
  getDate : Int
  getHours : Int
  getMinutes : Int
  getSeconds : Int
  getMilliseconds : Int
deriving DecidableEq

/-- The structured record produced by formatTimestamp.ts. -/
structure TimestampParts where
  year : Int
  month : Int
  day : Int
  hour : Int
  minute : Int
  second : Int
  millisecond : Int
  offsetMinutes : Option Int
deriving DecidableEq

/-- The `offsetMinutes` value that formatTimestamp.ts derives from the
zone capture groups: `0` for a literal `Z`/`z`, `sign × (hours×60 +
minutes)` for a signed token, `null` when no zone token is present (the
`Number.isFinite` guard corresponds to the inner `match`). -/
def offsetFromZone (zone : Option ZoneGroups) : Option Int :=
  match zone with
  | none => none
  | some (.zLit _) => some 0
  | some (.signed sgn hh mm) =>
    match parseIntAllDigits hh, parseIntAllDigits mm with
    | some oh, some om =>
      some ((if sgn = '-' then -1 else 1) * ((oh : Int) * 60 + om))
    | _, _ => none

/-- The millisecond digit source: `fractionStr ? fractionStr.slice(0, 3) :
'0'` (formatTimestamp.ts line 32). -/
def fractionChars (fractionStr : Option (List Char)) : List Char :=
  match fractionStr with
  | some f => f.take 3
  | none => ['0']

/-- The structured record that formatTimestamp.ts builds from the strict
pattern's capture groups (formatTimestamp.ts lines 24-66).  The source's
`Number.isNaN` guard over the parsed fields is the seven-way `match`. -/
def partsFromGroups (localOf : Int → LocalFields) (g : IsoGroups) : Option TimestampParts :=
  let year? := parseIntAllDigits g.yearStr
  let month? := parseIntAllDigits g.monthStr
  let day? := parseIntAllDigits g.dayStr
  let hour? := parseIntAllDigits g.hourStr
  let minute? := parseIntAllDigits g.minuteStr
  let second? := parseIntAllDigits (g.secondStr.getD ['0'])
  let millisecond? := parseIntAllDigits (padEndTo 3 '0' (fractionChars g.fractionStr))
  let offsetMinutes := offsetFromZone g.zone
  match year?, month?, day?, hour?, minute?, second?, millisecond? with
  | some year, some month, some day, some hour, some minute, some second, some millisecond =>
    let utcMillis := dateUTC year ((month : Int) - 1) day hour minute second millisecond
    let adjustedMillis := utcMillis - (offsetMinutes.getD 0) * 60000
    let localT := localOf adjustedMillis
    some ⟨localT.getFullYear, localT.getMonth + 1, localT.getDate, localT.getHours,
          localT.getMinutes, localT.getSeconds, localT.getMilliseconds, offsetMinutes⟩
  | _, _, _, _, _, _, _ => none

/-- formatTimestamp.ts `parseTimestampParts`.  `localOf` is the host's
epoch-milliseconds-to-local-fields mapping (`new Date(ms)` plus its local
getters); `fallbackDate` is the host's free-form `new Date(string)` parse,
returning `none` when the resulting time value is NaN. -/
def parseTimestampParts (localOf : Int → LocalFields)
    (fallbackDate : List Char → Option LocalFields)
    (raw : Option (List Char)) : Option TimestampParts :=
  match raw with
  | none => none
  | some r =>
    let trimmed := jsTrim r
    if trimmed = [] then none
    else
      match matchISOish trimmed with
      | some g => partsFromGroups localOf g
      | none =>
        match fallbackDate trimmed with
        | none => none
        | some fb =>
          some ⟨fb.getFullYear, fb.getMonth + 1, fb.getDate, fb.getHours,
                fb.getMinutes, fb.getSeconds, fb.getMilliseconds, none⟩

/-- formatTimestamp.ts `pad`: `value.toString().padStart(2, '0')`. -/
def padTS (n : Int) : List Char :=
  let s := intToChars n
  List.replicate (2 - s.length) '0' ++ s

/-- The `"YYYY-MM-DD HH:MM:SS"` base form built by `formatTimestamp`. -/
def bareTimestampForm (p : TimestampParts) : List Char :=
  intToChars p.year ++ '-' :: padTS p.month ++ '-' :: padTS p.day ++
  ' ' :: padTS p.hour ++ ':' :: padTS p.minute ++ ':' :: padTS p.second

/-- formatTimestamp.ts `formatTimestamp`: `null` for null-ish or
whitespace-only input, the trimmed raw string when parsing fails, else the
base form with the `" UTC±HH:MM"` suffix exactly when `offsetMinutes` is
non-null. -/
def formatTimestamp (localOf : Int → LocalFields)
    (fallbackDate : List Char → Option LocalFields)
    (raw : Option (List Char)) : Option (List Char) :=
  match parseTimestampParts localOf fallbackDate raw with
  | none =>
    match raw with
    | none => none
    | some r => if jsTrim r = [] then none else some (jsTrim r)
  | some parts =>
    let base := bareTimestampForm parts
    match parts.offsetMinutes with
    | none => some base
    | some om =>
      let sign := if om ≥ 0 then '+' else '-'
      let absMinutes := |om|
      let offsetHours := padTS (Int.fdiv absMinutes 60)
      let offsetRemainingMinutes := padTS (Int.emod absMinutes 60)
      some (base ++ " UTC".toList ++ sign :: (offsetHours ++ ':' :: offsetRemainingMinutes))

/-- C3: the risk-to-colour pipeline first clamps risk into `[0,1]`
(`clampRisk`), then `colorForRisk` produces the HSL colour with
`hue = 120 − risk×120` and `lightness = 65 − risk×20` at fixed saturation;
on `[0,1]` the hue strictly decreases as the risk increases, and the
mapping is pure: equal risks give the identical colour. -/
theorem c3_risk_color_mapping :
    (∀ q : ℚ, (q < 0 → clampRisk (some (.num q)) = some 0) ∧
      (1 < q → clampRisk (some (.num q)) = some 1) ∧
      (0 ≤ q → q ≤ 1 → clampRisk (some (.num q)) = some q)) ∧
    (∀ r : ℚ, colorForRisk r = ⟨120 - r * 120, 85, 65 - r * 20⟩) ∧
    (∀ r1 r2 : ℚ, 0 ≤ r1 → r1 < r2 → r2 ≤ 1 →
      (colorForRisk r2).hue < (colorForRisk r1).hue) ∧
    (∀ r1 r2 : ℚ, r1 = r2 → colorForRisk r1 = colorForRisk r2) := by
  refine ⟨fun q => ⟨fun h => ?_, fun h => ?_, fun h0 h1 => ?_⟩,
    fun r => rfl, fun r1 r2 h0 h12 h1 => ?_, fun r1 r2 h => by rw [h]⟩
  · simp only [clampRisk, if_pos h]
  · simp only [clampRisk]
    rw [if_neg (by linarith), if_pos (by exact h)]
  · simp only [clampRisk]
    rw [if_neg (by linarith), if_neg (by exact not_lt.mpr h1)]
  · simp only [colorForRisk]
    linarith

/-- C3 witness: the clamp, the hue formula, the strict hue decrease and
purity, evaluated at concrete risks. -/
theorem c3_risk_color_mapping_wit :
    clampRisk (some (.num 2)) = some 1 ∧
    (colorForRisk 1).hue < (colorForRisk 0).hue := by
  exact ⟨(c3_risk_color_mapping.1 2).2.1 (by norm_num),
    c3_risk_color_mapping.2.2.1 0 1 (by norm_num) (by norm_num) (by norm_num)⟩

/-- C4: for `min ≤ max` the padded interval contains `[min, max]`; for
`min = max = 0` the span is `0.2` (strictly positive, via the epsilon 1);
for `min = max = v ≠ 0` the span is `0.2·|v|`; for `min < max` the span is
`1.10·(max − min)`. -/
theorem c4_pad_range (mn mx : ℚ) (h : mn ≤ mx) :
    ((padRange mn mx).1 ≤ mn ∧ mx ≤ (padRange mn mx).2) ∧
    (mn = 0 → mx = 0 →
      (padRange mn mx).2 - (padRange mn mx).1 = 0.2 ∧
      0 < (padRange mn mx).2 - (padRange mn mx).1) ∧
    (mn = mx → mn ≠ 0 →
      (padRange mn mx).2 - (padRange mn mx).1 = 0.2 * |mn|) ∧
    (mn < mx →
      (padRange mn mx).2 - (padRange mn mx).1 = 1.10 * (mx - mn)) := by
  by_cases heq : mn = mx
  · subst heq
    by_cases h0 : mn = 0
    · subst h0
      norm_num [padRange]
    · have habs : 0 ≤ |mn| := abs_nonneg mn
      have hpr : padRange mn mn = (mn - |mn| * 0.1, mn + |mn| * 0.1) := by
        simp [padRange, h0]
      rw [hpr]
      refine ⟨⟨by nlinarith, by nlinarith⟩, fun hz => absurd hz h0, fun _ _ => by ring,
        fun hlt => absurd hlt (lt_irrefl mn)⟩
  · have hlt : mn < mx := lt_of_le_of_ne h heq
    simp only [padRange, if_neg heq]
    refine ⟨⟨by nlinarith, by nlinarith⟩, fun h1 h2 => ?_, fun h1 => absurd h1 heq,
      fun _ => by ring⟩
    exact absurd (h1.trans h2.symm) heq

/-- C4 witness: the padded span at concrete endpoint pairs. -/
theorem c4_pad_range_wit :
    (padRange 1 3).2 - (padRange 1 3).1 = 1.10 * (3 - 1) ∧
    (padRange 0 0).2 - (padRange 0 0).1 = 0.2 ∧
    (padRange 3 3).2 - (padRange 3 3).1 = 0.2 * |(3 : ℚ)| := by
  refine ⟨(c4_pad_range 1 3 (by norm_num)).2.2.2 (by norm_num),
    ((c4_pad_range 0 0 le_rfl).2.1 rfl rfl).1,
    (c4_pad_range 3 3 le_rfl).2.2.1 rfl (by norm_num)⟩

/-- C8: the Dashboard report collection appends the three panels' non-null
sections in the fixed order time-series, scatter, heatmap; when all three
are null the blocking alert is raised and the download is never invoked,
and any invoked download carries exactly the non-empty ordered list. -/
theorem c8_report_collection {α : Type} (lineSection scatterSection heatmapSection : Option α) :
    (handleDownloadReport lineSection scatterSection heatmapSection =
        ReportOutcome.alert ("Load at least one chart before exporting the report.") ↔
      lineSection = none ∧ scatterSection = none ∧ heatmapSection = none) ∧
    (∀ secs, handleDownloadReport lineSection scatterSection heatmapSection =
        ReportOutcome.download secs →
      secs = lineSection.toList ++ scatterSection.toList ++ heatmapSection.toList ∧
      secs ≠ []) := by
  cases lineSection <;> cases scatterSection <;> cases heatmapSection <;>
    simp [handleDownloadReport, Option.toList]

/-- C8 witness: all three sections null yields the alert; a single loaded
heatmap yields a one-element download. -/
theorem c8_report_collection_wit :
    handleDownloadReport (α := Nat) none none none =
      ReportOutcome.alert ("Load at least one chart before exporting the report.") ∧
    ∀ secs, handleDownloadReport (α := Nat) none none (some 7) =
      ReportOutcome.download secs → secs = [7] ∧ secs ≠ [] := by
  refine ⟨(c8_report_collection none none none).1.mpr ⟨rfl, rfl, rfl⟩, fun secs h => ?_⟩
  exact (c8_report_collection none none (some 7)).2 secs h

/-- C10: `clampRisk` returns `null` exactly on `null`/`undefined`/`NaN`,
and otherwise a value in `[0,1]` (0 below, 1 above, identity inside); a
cell with an installed enabled sensor, a non-null value but a NaN risk is
rendered as 'no data' by both the canvas and the interactive renderer. -/
theorem c10_clamp_risk_nan :
    (clampRisk none = none ∧ clampRisk (some .nan) = none) ∧
    (∀ q : ℚ, ∃ c, clampRisk (some (.num q)) = some c ∧ 0 ≤ c ∧ c ≤ 1 ∧
      (q < 0 → c = 0) ∧ (1 < q → c = 1) ∧ (0 ≤ q → q ≤ 1 → c = q)) ∧
    (∀ (row : RiskHeatmapRow) (colIdx : Nat) (v : JsNum),
      row.has_sensor = true → row.enabled = true →
      row.values.getD colIdx none = some v →
      row.risk.getD colIdx none = some .nan →
      canvasCellPaint row colIdx = (NO_DATA_COLOR, none) ∧
      renderCellView row colIdx = .noData) := by
  refine ⟨⟨rfl, rfl⟩, fun q => ?_, fun row colIdx v hs he hv hr => ?_⟩
  · refine ⟨if q < 0 then 0 else if q > 1 then 1 else q,
      by simp only [clampRisk]; split_ifs <;> rfl, ?_, ?_, ?_, ?_, ?_⟩ <;>
      split_ifs with h1 h2 <;> intros <;> first | rfl | linarith
  · have hv' : row.values[colIdx]?.getD none = some v := by simpa [List.getD] using hv
    have hr' : row.risk[colIdx]?.getD none = some JsNum.nan := by simpa [List.getD] using hr
    constructor <;>
      simp [canvasCellPaint, renderCellView, hs, he, hv', hr', clampRisk, List.getD]

/-- C10 witness: a concrete enabled row with a value and a NaN risk renders
as 'no data' in both renderers, and NaN itself clamps to `null`. -/
theorem c10_clamp_risk_nan_wit :
    canvasCellPaint ⟨"temp", "C", [some (.num 21)], [some .nan], true, true⟩ 0 =
      (NO_DATA_COLOR, none) ∧
    renderCellView ⟨"temp", "C", [some (.num 21)], [some .nan], true, true⟩ 0 = .noData := by
  exact c10_clamp_risk_nan.2.2 ⟨"temp", "C", [some (.num 21)], [some .nan], true, true⟩ 0
    (.num 21) rfl rfl rfl rfl

/-- C1: both the canvas renderer and the interactive cell renderer resolve
a heatmap cell by the same four-way precedence: no matching sensor beats
everything; then sensor disabled; then missing value or missing/NaN risk;
otherwise the continuous risk colour with the value printed to one decimal
place. -/
theorem c1_heatmap_cell_precedence (row : RiskHeatmapRow) (colIdx : Nat) :
    (row.has_sensor = false →
      canvasCellPaint row colIdx = (NO_SENSOR_COLOR, none) ∧
      renderCellView row colIdx = .noSensor) ∧
    (row.has_sensor = true → row.enabled = false →
      canvasCellPaint row colIdx = (DISABLED_COLOR, none) ∧
      renderCellView row colIdx = .disabled) ∧
    (row.has_sensor = true → row.enabled = true →
      (row.values.getD colIdx none = none ∨ clampRisk (row.risk.getD colIdx none) = none) →
      canvasCellPaint row colIdx = (NO_DATA_COLOR, none) ∧
      renderCellView row colIdx = .noData) ∧
    (∀ v r, row.has_sensor = true → row.enabled = true →
      row.values.getD colIdx none = some v →
      clampRisk (row.risk.getD colIdx none) = some r →
      canvasCellPaint row colIdx = (Fill.hsl (colorForRisk r), some (jsToFixed1 v)) ∧
      renderCellView row colIdx = .cell (colorForRisk r) (jsToFixed1 v) (ratToFixed0 (r * 100))) := by
  refine ⟨fun hs => ?_, fun hs he => ?_, fun hs he hvr => ?_, fun v r hs he hv hr => ?_⟩
  · constructor <;> simp [canvasCellPaint, renderCellView, hs]
  · constructor <;> simp [canvasCellPaint, renderCellView, hs, he]
  · rcases hvr with hv | hr
    · have hv' : row.values[colIdx]?.getD none = none := by simpa [List.getD] using hv
      constructor <;> simp [canvasCellPaint, renderCellView, hs, he, hv', List.getD]
    · have hr' : clampRisk (row.risk[colIdx]?.getD none) = none := by
        simpa [List.getD] using hr
      cases hval : row.values[colIdx]?.getD none <;>
        constructor <;>
        simp [canvasCellPaint, renderCellView, hs, he, hval, hr', List.getD]
  · have hv' : row.values[colIdx]?.getD none = some v := by simpa [List.getD] using hv
    have hr' : clampRisk (row.risk[colIdx]?.getD none) = some r := by
      simpa [List.getD] using hr
    constructor <;> simp [canvasCellPaint, renderCellView, hs, he, hv', hr', List.getD]

/-- C1 witness: a concrete row evaluated through both renderers in the
value-bearing case and in the no-sensor case. -/
theorem c1_heatmap_cell_precedence_wit :
    canvasCellPaint ⟨"temp", "C", [some (.num 21)], [some (.num (1/2))], true, true⟩ 0 =
      (Fill.hsl (colorForRisk (1/2)), some (jsToFixed1 (.num 21))) ∧
    renderCellView ⟨"temp", "C", [some (.num 21)], [some (.num (1/2))], true, true⟩ 0 =
      .cell (colorForRisk (1/2)) (jsToFixed1 (.num 21)) (ratToFixed0 ((1/2) * 100)) ∧
    canvasCellPaint ⟨"co2", "ppm", [some (.num 400)], [some (.num (1/4))], true, false⟩ 0 =
      (NO_SENSOR_COLOR, none) := by
  have h1 := (c1_heatmap_cell_precedence
    ⟨"temp", "C", [some (.num 21)], [some (.num (1/2))], true, true⟩ 0).2.2.2
    (.num 21) (1/2) rfl rfl rfl (by norm_num [clampRisk])
  have h2 := (c1_heatmap_cell_precedence
    ⟨"co2", "ppm", [some (.num 400)], [some (.num (1/4))], true, false⟩ 0).1 rfl
  exact ⟨h1.1, h1.2, h2.1⟩

/-- C2 counterexample: with 24 columns the stride is 2, the loop draws the
12 even indices 0..22, and the forced last-column tick 23 brings the
visible tick count to 13, exceeding the claimed bound of 12. -/
theorem c2_tick_count_counterexample :
    tickEvery 24 = 2 ∧ (allDrawnTicks 24).card = 13 ∧
    ¬(allDrawnTicks 24).card ≤ 12 := by decide

/-- C2 (amended): for any `columnCount ≥ 1` the drawn ticks are exactly
the multiples of `tickEvery = ceil(columnCount/12)` below `columnCount`
together with the always-drawn last column index; the loop draws at most
12 ticks, so the total is at most 13 (13 is attained, see the
counterexample). -/
theorem c2_tick_thinning_amended (cols : Nat) (hc : 1 ≤ cols) :
    (∀ c, c ∈ allDrawnTicks cols ↔
      ((c < cols ∧ c % tickEvery cols = 0) ∨ c = cols - 1)) ∧
    cols - 1 ∈ allDrawnTicks cols ∧
    (drawnTicks cols).card ≤ 12 ∧
    (allDrawnTicks cols).card ≤ 13 := by
  have hk1 : 1 ≤ tickEvery cols := le_max_left 1 _
  have hge : (cols + 11) / 12 ≤ tickEvery cols := le_max_right 1 _
  have hcols : cols ≤ 12 * tickEvery cols := by omega
  have hmem : ∀ c, c ∈ allDrawnTicks cols ↔
      ((c < cols ∧ c % tickEvery cols = 0) ∨ c = cols - 1) := by
    intro c
    unfold allDrawnTicks
    by_cases hlast : cols - 1 ∈ drawnTicks cols
    · rw [if_pos hlast]
      simp only [drawnTicks, Finset.mem_filter, Finset.mem_range] at hlast ⊢
      constructor
      · exact fun hcm => .inl hcm
      · rintro (hcm | rfl)
        · exact hcm
        · exact hlast
    · rw [if_neg hlast]
      simp only [Finset.mem_insert, drawnTicks, Finset.mem_filter, Finset.mem_range] at *
      tauto
  have hcard : (drawnTicks cols).card ≤ 12 := by
    have hmain : (drawnTicks cols).card ≤ (Finset.range 12).card := by
      apply Finset.card_le_card_of_injOn (fun c => c / tickEvery cols)
      · intro c hcm
        simp only [drawnTicks, Finset.mem_filter, Finset.mem_range] at hcm
        simp only [Finset.mem_range]
        exact (Nat.div_lt_iff_lt_mul (by omega)).mpr (by omega)
      · intro a ha b hb hab
        have ha' := Finset.mem_coe.mp ha
        have hb' := Finset.mem_coe.mp hb
        simp only [drawnTicks, Finset.mem_filter, Finset.mem_range] at ha' hb'
        have hda := Nat.div_add_mod a (tickEvery cols)
        have hdb := Nat.div_add_mod b (tickEvery cols)
        have hab' : a / tickEvery cols = b / tickEvery cols := hab
        rw [hab'] at hda
        omega
    simpa using hmain
  refine ⟨hmem, (hmem (cols - 1)).mpr (.inr rfl), hcard, ?_⟩
  have hins : (allDrawnTicks cols).card ≤ (drawnTicks cols).card + 1 := by
    unfold allDrawnTicks
    split_ifs
    · exact Nat.le_succ _
    · exact Finset.card_insert_le _ _
  omega

/-- C2 (amended) witness: at 30 columns the last index 29 is drawn even
though the stride is 3, and the tick count stays within 13. -/
theorem c2_tick_thinning_amended_wit :
    29 ∈ allDrawnTicks 30 ∧ (allDrawnTicks 30).card ≤ 13 := by
  have h := c2_tick_thinning_amended 30 (by norm_num)
  exact ⟨h.2.1, h.2.2.2⟩

/-- `jsMathMin` returns `none` exactly on the empty list. -/
theorem jsMathMin_eq_none (l : List ℚ) : jsMathMin l = none ↔ l = [] := by
  cases l with
  | nil => simp [jsMathMin]
  | cons x xs => cases h : jsMathMin xs <;> simp [jsMathMin, h]

/-- `jsMathMax` returns `none` exactly on the empty list. -/
theorem jsMathMax_eq_none (l : List ℚ) : jsMathMax l = none ↔ l = [] := by
  cases l with
  | nil => simp [jsMathMax]
  | cons x xs => cases h : jsMathMax xs <;> simp [jsMathMax, h]

/-- The value of `jsMathMin` is a lower bound of the list. -/
theorem jsMathMin_le (l : List ℚ) (m : ℚ) (hm : jsMathMin l = some m) :
    ∀ x ∈ l, m ≤ x := by
  induction l generalizing m with
  | nil => intro x hx; simp at hx
  | cons a xs ih =>
    intro x hx
    simp only [jsMathMin] at hm
    cases h : jsMathMin xs with
    | none =>
      rw [h] at hm
      obtain rfl : a = m := by simpa using hm
      have hxs : xs = [] := (jsMathMin_eq_none xs).mp h
      subst hxs
      simp at hx
      subst hx
      exact le_refl _
    | some m' =>
      rw [h] at hm
      obtain rfl : min a m' = m := by simpa using hm
      rcases List.mem_cons.mp hx with rfl | hx'
      · exact min_le_left _ _
      · exact le_trans (min_le_right _ _) (ih m' h x hx')

/-- The value of `jsMathMax` is an upper bound of the list. -/
theorem jsMathMax_ge (l : List ℚ) (m : ℚ) (hm : jsMathMax l = some m) :
    ∀ x ∈ l, x ≤ m := by
  induction l generalizing m with
  | nil => intro x hx; simp at hx
  | cons a xs ih =>
    intro x hx
    simp only [jsMathMax] at hm
    cases h : jsMathMax xs with
    | none =>
      rw [h] at hm
      obtain rfl : a = m := by simpa using hm
      have hxs : xs = [] := (jsMathMax_eq_none xs).mp h
      subst hxs
      simp at hx
      subst hx
      exact le_refl _
    | some m' =>
      rw [h] at hm
      obtain rfl : max a m' = m := by simpa using hm
      rcases List.mem_cons.mp hx with rfl | hx'
      · exact le_max_left _ _
      · exact le_trans (ih m' h x hx') (le_max_right _ _)

/-- The value of `jsMathMin` is an element of the list. -/
theorem jsMathMin_mem (l : List ℚ) (m : ℚ) (hm : jsMathMin l = some m) : m ∈ l := by
  induction l generalizing m with
  | nil => simp [jsMathMin] at hm
  | cons a xs ih =>
    simp only [jsMathMin] at hm
    cases h : jsMathMin xs with
    | none =>
      rw [h] at hm
      obtain rfl : a = m := by simpa using hm
      exact List.mem_cons_self _ _
    | some m' =>
      rw [h] at hm
      obtain rfl : min a m' = m := by simpa using hm
      rcases min_cases a m' with ⟨he, _⟩ | ⟨he, _⟩
      · rw [he]; exact List.mem_cons_self _ _
      · rw [he]; exact List.mem_cons_of_mem _ (ih m' h)

/-- The value of `jsMathMax` is an element of the list. -/
theorem jsMathMax_mem (l : List ℚ) (m : ℚ) (hm : jsMathMax l = some m) : m ∈ l := by
  induction l generalizing m with
  | nil => simp [jsMathMax] at hm
  | cons a xs ih =>
    simp only [jsMathMax] at hm
    cases h : jsMathMax xs with
    | none =>
      rw [h] at hm
      obtain rfl : a = m := by simpa using hm
      exact List.mem_cons_self _ _
    | some m' =>
      rw [h] at hm
      obtain rfl : max a m' = m := by simpa using hm
      rcases max_cases a m' with ⟨he, _⟩ | ⟨he, _⟩
      · rw [he]; exact List.mem_cons_self _ _
      · rw [he]; exact List.mem_cons_of_mem _ (ih m' h)

/-- C5: for non-empty data the computed Y domain exists, contains every
data value and every threshold value, has strictly positive span (when all
values and thresholds coincide at `v` it is `[v−1, v+1]`), so the
`(v − y0)/(y1 − y0)` scale is never a division by zero. -/
theorem c5_chart_y_domain (data thrVals : List ℚ) (hne : data ≠ []) :
    ∃ y0 y1, chartYDomain data thrVals = some (y0, y1) ∧
      (∀ v ∈ data, y0 ≤ v ∧ v ≤ y1) ∧
      (∀ t ∈ thrVals, y0 ≤ t ∧ t ≤ y1) ∧
      0 < y1 - y0 ∧
      (∀ w : ℚ, (∀ x ∈ data, x = w) → (∀ x ∈ thrVals, x = w) →
        y0 = w - 1 ∧ y1 = w + 1) := by
  have hne2 : data ++ thrVals ≠ [] := fun h => hne (List.append_eq_nil.mp h).1
  obtain ⟨m, hm⟩ : ∃ m, jsMathMin (data ++ thrVals) = some m := by
    cases h : jsMathMin (data ++ thrVals) with
    | none => exact absurd ((jsMathMin_eq_none _).mp h) hne2
    | some m => exact ⟨m, rfl⟩
  obtain ⟨M, hM⟩ : ∃ M, jsMathMax (data ++ thrVals) = some M := by
    cases h : jsMathMax (data ++ thrVals) with
    | none => exact absurd ((jsMathMax_eq_none _).mp h) hne2
    | some M => exact ⟨M, rfl⟩
  have hmle : ∀ x ∈ data ++ thrVals, m ≤ x := jsMathMin_le _ _ hm
  have hMge : ∀ x ∈ data ++ thrVals, x ≤ M := jsMathMax_ge _ _ hM
  have hmmem : m ∈ data ++ thrVals := jsMathMin_mem _ _ hm
  have hMmem : M ∈ data ++ thrVals := jsMathMax_mem _ _ hM
  have hmM : m ≤ M := hMge m hmmem
  unfold chartYDomain
  rw [hm, hM]
  by_cases he : m = M
  · subst he
    refine ⟨m - 1, m + 1, by simp, ?_, ?_, by linarith, ?_⟩
    · intro v hv
      have h1 := hmle v (List.mem_append_left _ hv)
      have h2 := hMge v (List.mem_append_left _ hv)
      constructor <;> linarith
    · intro t ht
      have h1 := hmle t (List.mem_append_right _ ht)
      have h2 := hMge t (List.mem_append_right _ ht)
      constructor <;> linarith
    · intro w hw1 hw2
      have hmw : m = w := by
        rcases List.mem_append.mp hmmem with h | h
        · exact hw1 m h
        · exact hw2 m h
      rw [hmw]
      exact ⟨rfl, rfl⟩
  · have hlt : m < M := lt_of_le_of_ne hmM he
    refine ⟨m, M, by simp [he], ?_, ?_, by linarith, ?_⟩
    · intro v hv
      exact ⟨hmle v (List.mem_append_left _ hv), hMge v (List.mem_append_left _ hv)⟩
    · intro t ht
      exact ⟨hmle t (List.mem_append_right _ ht), hMge t (List.mem_append_right _ ht)⟩
    · intro w hw1 hw2
      have hall : ∀ x ∈ data ++ thrVals, x = w := by
        intro x hx
        rcases List.mem_append.mp hx with h | h
        · exact hw1 x h
        · exact hw2 x h
      exact absurd ((hall m hmmem).trans (hall M hMmem).symm) he

/-- C5 witness: the single-point series `[21.5]` with no thresholds yields
a well-defined domain with positive span. -/
theorem c5_chart_y_domain_wit :
    ∃ y0 y1, chartYDomain [(43 : ℚ)/2] [] = some (y0, y1) ∧ 0 < y1 - y0 := by
  obtain ⟨y0, y1, hd, _, _, hspan, _⟩ :=
    c5_chart_y_domain [(43 : ℚ)/2] [] (by simp)
  exact ⟨y0, y1, hd, hspan⟩

/-- A global single-character replacement distributes over append. -/
theorem replaceAllChar_append (c : Char) (rep xs ys : List Char) :
    replaceAllChar c rep (xs ++ ys) =
      replaceAllChar c rep xs ++ replaceAllChar c rep ys := by
  induction xs with
  | nil => rfl
  | cons x xs ih => simp [replaceAllChar, ih, List.append_assoc]

/-- Head expansion of the escaping chain: the five chained replacements act
on the head character exactly as the per-character entity map. -/
theorem escapeHtml_cons (x : Char) (xs : List Char) :
    escapeHtml (x :: xs) = escapeChar x ++ escapeHtml xs := by
  have h1 : replaceAllChar '&' "&amp;".toList (x :: xs) =
      (if x = '&' then "&amp;".toList else [x]) ++
        replaceAllChar '&' "&amp;".toList xs := rfl
  rw [escapeHtml, h1, replaceAllChar_append, replaceAllChar_append,
    replaceAllChar_append, replaceAllChar_append]
  show _ ++ escapeHtml xs = _ ++ escapeHtml xs
  congr 1
  by_cases h1 : x = '&'
  · subst h1; decide
  · by_cases h2 : x = '<'
    · subst h2; decide
    · by_cases h3 : x = '>'
      · subst h3; decide
      · by_cases h4 : x = '"'
        · subst h4; decide
        · by_cases h5 : x = apos
          · subst h5; decide
          · simp [replaceAllChar, escapeChar, h1, h2, h3, h4, h5]

/-- The escaping chain equals the simultaneous per-character entity map. -/
theorem escapeHtml_flatMap (l : List Char) : escapeHtml l = l.flatMap escapeChar := by
  induction l with
  | nil => rfl
  | cons x xs ih => rw [escapeHtml_cons, ih]; rfl

/-- The entity map never emits a raw `<`, `>`, `"` or `'`. -/
theorem escapeChar_not_special (x c : Char) (hc : c ∈ escapeChar x) :
    c ≠ '<' ∧ c ≠ '>' ∧ c ≠ '"' ∧ c ≠ apos := by
  unfold escapeChar at hc
  split_ifs at hc with h1 h2 h3 h4 h5
  · rw [show ("&amp;".toList = ['&', 'a', 'm', 'p', ';']) from rfl] at hc
    simp only [List.mem_cons, List.not_mem_nil, or_false] at hc
    rcases hc with rfl | rfl | rfl | rfl | rfl <;> exact ⟨by decide, by decide, by decide, by decide⟩
  · rw [show ("&lt;".toList = ['&', 'l', 't', ';']) from rfl] at hc
    simp only [List.mem_cons, List.not_mem_nil, or_false] at hc
    rcases hc with rfl | rfl | rfl | rfl <;> exact ⟨by decide, by decide, by decide, by decide⟩
  · rw [show ("&gt;".toList = ['&', 'g', 't', ';']) from rfl] at hc
    simp only [List.mem_cons, List.not_mem_nil, or_false] at hc
    rcases hc with rfl | rfl | rfl | rfl <;> exact ⟨by decide, by decide, by decide, by decide⟩
  · rw [show ("&quot;".toList = ['&', 'q', 'u', 'o', 't', ';']) from rfl] at hc
    simp only [List.mem_cons, List.not_mem_nil, or_false] at hc
    rcases hc with rfl | rfl | rfl | rfl | rfl | rfl <;>
      exact ⟨by decide, by decide, by decide, by decide⟩
  · rw [show ("&#39;".toList = ['&', '#', '3', '9', ';']) from rfl] at hc
    simp only [List.mem_cons, List.not_mem_nil, or_false] at hc
    rcases hc with rfl | rfl | rfl | rfl | rfl <;> exact ⟨by decide, by decide, by decide, by decide⟩
  · simp only [List.mem_singleton] at hc
    subst hc
    exact ⟨h2, h3, h4, h5⟩

/-- A concrete section whose image data URL is a lone double quote. -/
def c9Section : ReportSection :=
  ReportSection.timeseries ("t".toList) ['"'] ⟨[], [], [], [], []⟩ []

/-- C9 counterexample: the exporter does not escape the image data URL —
for a section whose `imageDataUrl` is the single character `"`, the
produced HTML differs from the fully-escaped HTML demanded by the claim
(which escapes the URL as well), so not every interpolated string is
passed through the escaping function. -/
theorem c9_escape_counterexample :
    sectionToHtml c9Section ≠ sectionToHtmlSpecEscaped c9Section := by decide

/-- C9 (amended): the section title, each filter value (inside
`renderFilters`) and the serialized raw data are passed through
`escapeHtml`, whose output is exactly the per-character entity expansion
and never contains a raw `<`, `>`, `"` or `'`; the image data URL, in
contrast, is embedded into the `<img>` tag verbatim, without escaping. -/
theorem c9_escaping_amended (s : ReportSection) (input : List Char) :
    escapeHtml input = input.flatMap escapeChar ∧
    (∀ c ∈ escapeHtml input, c ≠ '<' ∧ c ≠ '>' ∧ c ≠ '"' ∧ c ≠ apos) ∧
    (∃ hpre hpost, sectionToHtml s = hpre ++ s.imageUrlOf ++ hpost ∧
      hpre = "\n    <div class=\"section\">\n      <h3>".toList ++ escapeHtml s.titleOf ++
        "</h3>\n      <div class=\"filters\">".toList ++ renderFilters s ++
        "</div>\n      ".toList ++ "<img src=\"".toList ∧
      hpost = "\" alt=\"".toList ++ escapeHtml s.titleOf ++ "\" />".toList ++
        "\n      <details>\n        <summary>Raw data</summary>\n        <pre>".toList ++
        escapeHtml s.dataOf ++ "</pre>\n      </details>\n    </div>\n  ".toList) := by
  refine ⟨escapeHtml_flatMap input, ?_, ?_⟩
  · intro c hc
    rw [escapeHtml_flatMap] at hc
    obtain ⟨x, _, hcx⟩ := List.mem_flatMap.mp hc
    exact escapeChar_not_special x c hcx
  · refine ⟨_, _, ?_, rfl, rfl⟩
    simp [sectionToHtml, List.append_assoc]

/-- C9 (amended) witness: escaping evaluated on a concrete string, the
no-raw-special property at a concrete escaped character, and the verbatim
URL decomposition of a concrete section. -/
theorem c9_escaping_amended_wit :
    escapeHtml ("a&b".toList) = "a&amp;b".toList ∧
    ('a' ≠ '<' ∧ 'a' ≠ '>' ∧ 'a' ≠ '"' ∧ 'a' ≠ apos) ∧
    (∃ hpre hpost, sectionToHtml c9Section = hpre ++ c9Section.imageUrlOf ++ hpost) := by
  have h := c9_escaping_amended c9Section ("a&b".toList)
  refine ⟨by rw [h.1]; decide, h.2.1 'a' (by decide), ?_⟩
  obtain ⟨hpre, hpost, heq, _, _⟩ := h.2.2
  exact ⟨hpre, hpost, heq⟩

/-- Trimming an all-whitespace string yields the empty string. -/
theorem jsTrim_all_space (r : List Char) (h : r.all isJsSpace = true) :
    jsTrim r = [] := by
  have h1 : r.dropWhile isJsSpace = [] := by
    rw [List.dropWhile_eq_nil_iff]
    intro x hx
    exact (List.all_eq_true.mp h) x hx
  simp [jsTrim, h1]

/-- C6: the timestamp reformatter is total and never falls through: null
and undefined inputs give `null`, whitespace-only inputs give `null`, and
a non-empty input that neither matches the strict pattern nor is accepted
by the free-form date fallback comes back as the trimmed input string,
unchanged. -/
theorem c6_format_timestamp_total (localOf : Int → LocalFields)
    (fallbackDate : List Char → Option LocalFields) :
    formatTimestamp localOf fallbackDate none = none ∧
    (∀ r : List Char, r.all isJsSpace = true →
      formatTimestamp localOf fallbackDate (some r) = none) ∧
    (∀ r : List Char, jsTrim r ≠ [] → matchISOish (jsTrim r) = none →
      fallbackDate (jsTrim r) = none →
      formatTimestamp localOf fallbackDate (some r) = some (jsTrim r)) := by
  refine ⟨rfl, fun r h => ?_, fun r hne hm hfb => ?_⟩
  · have ht := jsTrim_all_space r h
    simp [formatTimestamp, parseTimestampParts, ht]
  · simp [formatTimestamp, parseTimestampParts, hne, hm, hfb]

/-- The host-independent constant local-time oracle used by the witnesses. -/
def constLocalOf : Int → LocalFields := fun _ => ⟨2024, 0, 15, 16, 0, 0, 0⟩

/-- A free-form date fallback that accepts nothing, used by the witnesses. -/
def noFallback : List Char → Option LocalFields := fun _ => none

/-- C6 witness: an unparseable string comes back trimmed and a
whitespace-only string maps to `null`. -/
theorem c6_format_timestamp_total_wit :
    formatTimestamp constLocalOf noFallback (some ("  hello  ".toList)) =
      some ("hello".toList) ∧
    formatTimestamp constLocalOf noFallback (some ("   ".toList)) = none := by
  have h := c6_format_timestamp_total constLocalOf noFallback
  refine ⟨?_, h.2.1 _ (by decide)⟩
  have h3 := h.2.2 ("  hello  ".toList) (by decide) (by decide) rfl
  rw [h3]
  decide

/-- An exact-length digit match yields that many digits. -/
theorem takeDigitsExact_spec (n : Nat) :
    ∀ (l d r : List Char), takeDigitsExact n l = some (d, r) →
      d.length = n ∧ d.all Char.isDigit = true := by
  induction n with
  | zero =>
    intro l d r h
    simp only [takeDigitsExact, Option.some.injEq, Prod.mk.injEq] at h
    obtain ⟨h1, _⟩ := h
    subst h1
    simp
  | succ n ih =>
    intro l d r h
    cases l with
    | nil => simp [takeDigitsExact] at h
    | cons c cs =>
      simp only [takeDigitsExact] at h
      by_cases hc : c.isDigit
      · rw [if_pos hc] at h
        cases hin : takeDigitsExact n cs with
        | none => rw [hin] at h; simp at h
        | some p =>
          obtain ⟨d', r'⟩ := p
          rw [hin] at h
          simp only [Option.some.injEq, Prod.mk.injEq] at h
          obtain ⟨h1, _⟩ := h
          subst h1
          obtain ⟨hlen, hall⟩ := ih cs d' r' hin
          exact ⟨by simp [hlen], by simp [List.all_cons, hc, hall]⟩
      · rw [if_neg hc] at h
        simp at h

/-- A greedy one-or-more digit match yields a non-empty digit string. -/
theorem takeDigits1_spec (l d r : List Char) (h : takeDigits1 l = some (d, r)) :
    d ≠ [] ∧ d.all Char.isDigit = true := by
  simp only [takeDigits1] at h
  by_cases hd : l.takeWhile Char.isDigit = []
  · rw [if_pos hd] at h
    simp at h
  · rw [if_neg hd] at h
    simp only [Option.some.injEq, Prod.mk.injEq] at h
    obtain ⟨h1, _⟩ := h
    subst h1
    refine ⟨hd, ?_⟩
    rw [List.all_eq_true]
    intro x hx
    exact List.mem_takeWhile_imp hx

/-- A signed zone match captures two non-empty digit strings. -/
theorem matchZone_signed_spec (l : List Char) (sgn : Char) (hh mm : List Char)
    (h : matchZone l = some (.signed sgn hh mm)) :
    (hh ≠ [] ∧ hh.all Char.isDigit = true) ∧ (mm ≠ [] ∧ mm.all Char.isDigit = true) := by
  cases l with
  | nil => simp [matchZone] at h
  | cons c rest =>
    simp only [matchZone] at h
    by_cases hz : c = 'Z' ∨ c = 'z'
    · rw [if_pos hz] at h
      split_ifs at h <;> simp at h
    · rw [if_neg hz] at h
      by_cases hs : c = '+' ∨ c = '-'
      · rw [if_pos hs] at h
        split at h
        · simp at h
        · rename_i hh1 rest1 h1
          split at h
          · simp at h
          · rename_i mm1 rest3 h2
            split_ifs at h with h3
            · simp only [Option.some.injEq, ZoneGroups.signed.injEq] at h
              obtain ⟨_, h5, h6⟩ := h
              subst h5
              subst h6
              obtain ⟨hl1, ha1⟩ := takeDigitsExact_spec 2 rest _ rest1 h1
              obtain ⟨hl2, ha2⟩ := takeDigitsExact_spec 2 (skipColon rest1) _ rest3 h2
              refine ⟨⟨?_, ha1⟩, ⟨?_, ha2⟩⟩
              · intro he; rw [he] at hl1; simp at hl1
              · intro he; rw [he] at hl2; simp at hl2
      · rw [if_neg hs] at h
        simp at h

/-- A matched seconds group is two digits; a matched fraction is a
non-empty digit run. -/
theorem matchSeconds_spec (l : List Char) (sec frac : Option (List Char)) (r : List Char)
    (h : matchSeconds l = some (sec, frac, r)) :
    (∀ s, sec = some s → s ≠ [] ∧ s.all Char.isDigit = true) ∧
    (∀ f, frac = some f → f ≠ [] ∧ f.all Char.isDigit = true) := by
  simp only [matchSeconds] at h
  split at h
  · rename_i r0
    split at h
    · simp at h
    · rename_i s r1 h1
      have hs := takeDigitsExact_spec 2 r0 s r1 h1
      split at h
      · rename_i c r2
        split_ifs at h with hdot
        · split at h
          · simp at h
          · rename_i f r3 h2
            have hf := takeDigits1_spec r2 f r3 h2
            simp only [Option.some.injEq, Prod.mk.injEq] at h
            obtain ⟨h3, h4, _⟩ := h
            subst h3; subst h4
            refine ⟨fun s' hs' => ?_, fun f' hf' => ?_⟩
            · obtain rfl : s = s' := by simpa using hs'
              exact ⟨fun he => by rw [he] at hs; simp at hs, hs.2⟩
            · obtain rfl : f = f' := by simpa using hf'
              exact hf
        · simp only [Option.some.injEq, Prod.mk.injEq] at h
          obtain ⟨h3, h4, _⟩ := h
          subst h3; subst h4
          refine ⟨fun s' hs' => ?_, fun f' hf' => by simp at hf'⟩
          obtain rfl : s = s' := by simpa using hs'
          exact ⟨fun he => by rw [he] at hs; simp at hs, hs.2⟩
      · simp only [Option.some.injEq, Prod.mk.injEq] at h
        obtain ⟨h3, h4, _⟩ := h
        subst h3; subst h4
        refine ⟨fun s' hs' => ?_, fun f' hf' => by simp at hf'⟩
        obtain rfl : s = s' := by simpa using hs'
        exact ⟨fun he => by rw [he] at hs; simp at hs, hs.2⟩
  · simp only [Option.some.injEq, Prod.mk.injEq] at h
    obtain ⟨h3, h4, _⟩ := h
    subst h3; subst h4
    exact ⟨fun s' hs' => by simp at hs', fun f' hf' => by simp at hf'⟩

/-- Every capture group of a successful strict-pattern match is a digit
string of the right shape: four non-empty digit groups for the date and
time fields, two-digit seconds when present, a non-empty digit fraction
when present, and two-digit offset fields in a signed zone. -/
theorem matchISOish_groups (l : List Char) (g : IsoGroups) (h : matchISOish l = some g) :
    (g.yearStr ≠ [] ∧ g.yearStr.all Char.isDigit = true) ∧
    (g.monthStr ≠ [] ∧ g.monthStr.all Char.isDigit = true) ∧
    (g.dayStr ≠ [] ∧ g.dayStr.all Char.isDigit = true) ∧
    (g.hourStr ≠ [] ∧ g.hourStr.all Char.isDigit = true) ∧
    (g.minuteStr ≠ [] ∧ g.minuteStr.all Char.isDigit = true) ∧
    (∀ s, g.secondStr = some s → s ≠ [] ∧ s.all Char.isDigit = true) ∧
    (∀ f, g.fractionStr = some f → f ≠ [] ∧ f.all Char.isDigit = true) ∧
    (∀ sgn hh mm, g.zone = some (.signed sgn hh mm) →
      (hh ≠ [] ∧ hh.all Char.isDigit = true) ∧ (mm ≠ [] ∧ mm.all Char.isDigit = true)) := by
  simp only [matchISOish, bind, Option.bind] at h
  split at h
  · simp at h
  rename_i a1 heq1
  beta_reduce at h
  split at h
  · simp at h
  rename_i a2 heq2
  beta_reduce at h
  split at h
  · simp at h
  rename_i a3 heq3
  beta_reduce at h
  split at h
  · simp at h
  rename_i a4 heq4
  beta_reduce at h
  split at h
  · simp at h
  rename_i a5 heq5
  beta_reduce at h
  split at h
  · simp at h
  rename_i a6 heq6
  beta_reduce at h
  split at h
  · simp at h
  rename_i a7 heq7
  beta_reduce at h
  split at h
  · simp at h
  rename_i a8 heq8
  beta_reduce at h
  split at h
  · simp at h
  rename_i a9 heq9
  beta_reduce at h
  split at h
  · simp at h
  rename_i a10 heq10
  beta_reduce at h
  have hy := takeDigitsExact_spec 4 l a1.1 a1.2 heq1
  have hmo := takeDigitsExact_spec 2 a2 a3.1 a3.2 heq3
  have hd := takeDigitsExact_spec 2 a4 a5.1 a5.2 heq5
  have hh := takeDigitsExact_spec 2 a6 a7.1 a7.2 heq7
  have hmi := takeDigitsExact_spec 2 a8 a9.1 a9.2 heq9
  have hsec := matchSeconds_spec a9.2 a10.1 a10.2.1 a10.2.2 heq10
  have hyne : a1.1 ≠ [] := fun he => by rw [he] at hy; simp at hy
  have hmone : a3.1 ≠ [] := fun he => by rw [he] at hmo; simp at hmo
  have hdne : a5.1 ≠ [] := fun he => by rw [he] at hd; simp at hd
  have hhne : a7.1 ≠ [] := fun he => by rw [he] at hh; simp at hh
  have hmine : a9.1 ≠ [] := fun he => by rw [he] at hmi; simp at hmi
  split_ifs at h with hnil
  · simp only [Option.pure_def, Option.some.injEq] at h
    subst h
    exact ⟨⟨hyne, hy.2⟩, ⟨hmone, hmo.2⟩, ⟨hdne, hd.2⟩, ⟨hhne, hh.2⟩, ⟨hmine, hmi.2⟩,
      hsec.1, hsec.2, fun sgn hh mm hz => by simp at hz⟩
  · split at h
    · rename_i z heqz
      simp only [Option.pure_def, Option.some.injEq] at h
      subst h
      refine ⟨⟨hyne, hy.2⟩, ⟨hmone, hmo.2⟩, ⟨hdne, hd.2⟩, ⟨hhne, hh.2⟩, ⟨hmine, hmi.2⟩,
        hsec.1, hsec.2, fun sgn hh mm hz => ?_⟩
      obtain rfl : z = .signed sgn hh mm := by simpa using hz
      exact matchZone_signed_spec _ _ _ _ heqz
    · simp at h

/-- `Number.parseInt` evaluates a non-empty digit string to its value. -/
theorem parseIntAllDigits_eq (l : List Char) (h1 : l ≠ []) (h2 : l.all Char.isDigit = true) :
    parseIntAllDigits l = some (digitsVal l) := by
  simp [parseIntAllDigits, h1, h2]

/-- Padding a non-empty digit string with `'0'` keeps it a non-empty digit
string. -/
theorem padEndTo_digits (x : List Char) (hx : x.all Char.isDigit = true) (hne : x ≠ []) :
    padEndTo 3 '0' x ≠ [] ∧ (padEndTo 3 '0' x).all Char.isDigit = true := by
  constructor
  · intro he
    exact hne (List.append_eq_nil.mp he).1
  · rw [List.all_eq_true] at hx ⊢
    intro c hc
    rcases List.mem_append.mp hc with h | h
    · exact hx c h
    · rw [List.eq_of_mem_replicate h]
      decide

/-- The `offsetMinutes` value exactly as the specification describes it:
`0` for a literal `Z`/`z`, `sign × (hours×60 + minutes)` for a signed
token, `null` when no zone token is present. -/
def specOffsetMinutes (zone : Option ZoneGroups) : Option Int :=
  match zone with
  | none => none
  | some (.zLit _) => some 0
  | some (.signed sgn hh mm) =>
    some ((if sgn = '-' then (-1 : Int) else 1) *
      ((digitsVal hh : Int) * 60 + (digitsVal mm : Int)))

/-- `offsetFromZone` computes exactly the claimed sign × (h×60 + m)
combination on digit-valid zone groups. -/
theorem offsetFromZone_eq (zone : Option ZoneGroups)
    (hz : ∀ sgn hh mm, zone = some (.signed sgn hh mm) →
      (hh ≠ [] ∧ hh.all Char.isDigit = true) ∧ (mm ≠ [] ∧ mm.all Char.isDigit = true)) :
    offsetFromZone zone = specOffsetMinutes zone := by
  cases zone with
  | none => rfl
  | some z =>
    cases z with
    | zLit c => rfl
    | signed sgn hh mm =>
      obtain ⟨⟨h1, h2⟩, ⟨h3, h4⟩⟩ := hz sgn hh mm rfl
      simp [offsetFromZone, specOffsetMinutes,
        parseIntAllDigits_eq hh h1 h2, parseIntAllDigits_eq mm h3 h4]

/-- On digit-valid groups the record builder succeeds and carries
`offsetFromZone` of the zone groups in its `offsetMinutes` field. -/
theorem partsFromGroups_some (localOf : Int → LocalFields) (g : IsoGroups)
    (hy : g.yearStr ≠ [] ∧ g.yearStr.all Char.isDigit = true)
    (hmo : g.monthStr ≠ [] ∧ g.monthStr.all Char.isDigit = true)
    (hd : g.dayStr ≠ [] ∧ g.dayStr.all Char.isDigit = true)
    (hh : g.hourStr ≠ [] ∧ g.hourStr.all Char.isDigit = true)
    (hmi : g.minuteStr ≠ [] ∧ g.minuteStr.all Char.isDigit = true)
    (hsec : ∀ s, g.secondStr = some s → s ≠ [] ∧ s.all Char.isDigit = true)
    (hfrac : ∀ f, g.fractionStr = some f → f ≠ [] ∧ f.all Char.isDigit = true) :
    ∃ parts, partsFromGroups localOf g = some parts ∧
      parts.offsetMinutes = offsetFromZone g.zone := by
  have h1 := parseIntAllDigits_eq _ hy.1 hy.2
  have h2 := parseIntAllDigits_eq _ hmo.1 hmo.2
  have h3 := parseIntAllDigits_eq _ hd.1 hd.2
  have h4 := parseIntAllDigits_eq _ hh.1 hh.2
  have h5 := parseIntAllDigits_eq _ hmi.1 hmi.2
  have h6 : parseIntAllDigits (g.secondStr.getD ['0']) =
      some (digitsVal (g.secondStr.getD ['0'])) := by
    cases hs : g.secondStr with
    | none => decide
    | some s =>
      obtain ⟨hn, hdig⟩ := hsec s hs
      exact parseIntAllDigits_eq s hn hdig
  have h7 : parseIntAllDigits (padEndTo 3 '0' (fractionChars g.fractionStr)) =
      some (digitsVal (padEndTo 3 '0' (fractionChars g.fractionStr))) := by
    cases hf : g.fractionStr with
    | none => decide
    | some f =>
      obtain ⟨hn, hdig⟩ := hfrac f hf
      have ht1 : f.take 3 ≠ [] := by
        cases f with
        | nil => exact absurd rfl hn
        | cons a t => simp
      have ht2 : (f.take 3).all Char.isDigit = true := by
        rw [List.all_eq_true] at hdig ⊢
        intro c hc
        exact hdig c (List.mem_of_mem_take hc)
      obtain ⟨hp1, hp2⟩ := padEndTo_digits (f.take 3) ht2 ht1
      have := parseIntAllDigits_eq _ hp1 hp2
      simpa [fractionChars] using this
  simp only [partsFromGroups, h1, h2, h3, h4, h5, h6, h7]
  exact ⟨_, rfl, rfl⟩

/-- C7: for every input whose trimmed form matches the strict pattern, the
parser succeeds and sets `offsetMinutes` to `0` for a literal `Z`/`z`
zone, to `sign × (hours×60 + minutes)` for a signed zone token, and to
`null` when no zone token is present; the reformatter emits the bare
`YYYY-MM-DD HH:MM:SS` form exactly when `offsetMinutes` is null, and
otherwise appends `" UTC±HH:MM"` with `'+'` for non-negative offsets,
`HH = floor(|offsetMinutes|/60)` and `MM = |offsetMinutes| mod 60`, each
zero-padded to two digits. -/
theorem c7_offset_minutes (localOf : Int → LocalFields)
    (fallbackDate : List Char → Option LocalFields)
    (r : List Char) (g : IsoGroups) (hm : matchISOish (jsTrim r) = some g) :
    ∃ parts, parseTimestampParts localOf fallbackDate (some r) = some parts ∧
      parts.offsetMinutes = specOffsetMinutes g.zone ∧
      (parts.offsetMinutes = none →
        formatTimestamp localOf fallbackDate (some r) = some (bareTimestampForm parts)) ∧
      (∀ om, parts.offsetMinutes = some om →
        formatTimestamp localOf fallbackDate (some r) =
          some (bareTimestampForm parts ++ " UTC".toList ++
            (if om ≥ 0 then '+' else '-') ::
            (padTS (Int.fdiv |om| 60) ++ ':' :: padTS (Int.emod |om| 60)))) := by
  have htne : jsTrim r ≠ [] := by
    intro he
    rw [he] at hm
    have h0 : matchISOish ([] : List Char) = none := by decide
    rw [h0] at hm
    simp at hm
  obtain ⟨hy, hmo, hd, hh, hmi, hsec, hfrac, hz⟩ := matchISOish_groups _ _ hm
  obtain ⟨parts, hp, hoff⟩ :=
    partsFromGroups_some localOf g hy hmo hd hh hmi hsec hfrac
  have hparse : parseTimestampParts localOf fallbackDate (some r) = some parts := by
    simp only [parseTimestampParts, if_neg htne, hm]
    exact hp
  refine ⟨parts, hparse, ?_, ?_, ?_⟩
  · rw [hoff, offsetFromZone_eq g.zone hz]
  · intro hnone
    simp only [formatTimestamp, hparse, hnone]
  · intro om hsome
    simp only [formatTimestamp, hparse, hsome]

/-- The capture groups of `"2024-01-15T10:30:00+05:30"`. -/
def c7WitGroups : IsoGroups :=
  ⟨"2024".toList, "01".toList, "15".toList, "10".toList, "30".toList,
   some ("00".toList), none, some (.signed '+' ("05".toList) ("30".toList))⟩

/-- C7 witness: a concrete `+05:30` timestamp parses to offset 330 and the
reformatter appends `" UTC+05:30"` (the date-time fields go through the
constant local-time oracle). -/
theorem c7_offset_minutes_wit :
    ∃ parts, parseTimestampParts constLocalOf noFallback
        (some ("2024-01-15T10:30:00+05:30".toList)) = some parts ∧
      parts.offsetMinutes = some 330 ∧
      formatTimestamp constLocalOf noFallback
        (some ("2024-01-15T10:30:00+05:30".toList)) =
        some ("2024-01-15 16:00:00 UTC+05:30".toList) := by
  obtain ⟨parts, hp, hoff, _, hfmt⟩ :=
    c7_offset_minutes constLocalOf noFallback ("2024-01-15T10:30:00+05:30".toList)
      c7WitGroups (by decide)
  have ho : parts.offsetMinutes = some 330 := by rw [hoff]; decide
  have hpv : parts = ⟨2024, 1, 15, 16, 0, 0, 0, some 330⟩ := by
    have hcv : parseTimestampParts constLocalOf noFallback
        (some ("2024-01-15T10:30:00+05:30".toList)) =
        some ⟨2024, 1, 15, 16, 0, 0, 0, some 330⟩ := by decide
    rw [hp] at hcv
    simpa using hcv
  refine ⟨parts, hp, ho, ?_⟩
  rw [hfmt 330 ho, hpv]
  decide
